import Mathlib

/-!
# Battery telemetry loop of `app_main` (src/main/main.c)

A shallow embedding of the telemetry loop at the end of `app_main`
(main.c:402-436) and of the static bitmap tables it blits (main.c:282-344).

Conventions of the embedding.

* The C variable `soc` is a `float`. `CFloat` holds every value it can take: a
  NaN, an infinity, negative zero or a finite value, the finite value as a
  rational number (every `float` is one; that the rational is a `float` is
  not required). The loop on every such value is `soc_float`,
  `lineChar_float`, `icon_chain_float` and `loop_body_float`, with the C
  comparisons and the `%f` conversion of the special values. `soc`,
  `lineChar`, `icon_chain`, `render` and `loop_body` are the same statements
  on a finite value; the constants `100`, `25.00`, `50.00`, `75.00` and
  `100.00` are exact in binary floating point.
* `voltage` is computed as the program computes it: the constant `0.00125`
  rounded to `double`, the product rounded to `double`, the assignment
  rounded to `float` (`roundToPrecision`, ties to even). It is never negative,
  NaN or infinite, and is a rational number.
* The values `max17043_read_register_soc` can return are not visible in
  main.c; where a claim speaks of the values the gauge read returns, they are
  modelled from the spec (`max17043_read_register_soc_returns`).
* `voltageRaw` is a `uint16_t`; it is embedded as a natural number and the
  theorems that need its range assume `voltageRaw ≤ 65535`.
* `max17043_read_register_soc` and `max17043_read_register` are not defined in
  main.c. The values they return are the inputs of one loop iteration.
* The calls on the display driver (`ssd1306_display_text`, `ssd1306_bitmaps`)
  are recorded, with their arguments, as a list of `DisplayCall`s in program
  order. The driver itself is not defined in main.c; its effect on the pixel
  surface is a separate, clearly marked model (`Surface`).
* `sprintf` belongs to the C library. `printf_f` models its `%W.Pf` conversion
  of a finite value: sign, the magnitude rounded to `P` decimals (ties to even
  on the exact value), padded on the left with blanks to `W` characters;
  `printf_f_float` adds negative zero, the infinities and NaN.
-/

namespace TestCode

/-! ## Static bitmap tables (main.c:282-344) -/

/-- CBI Energy logo (128 x 32), `cbi_logo` (main.c:282-316). -/
def cbi_logo : List ℕ := [
  0x1f, 0xff, 0xff, 0x00, 0x00, 0x00, 0x00, 0x00, 0x00, 0x00, 0x00, 0x00, 0x00, 0x00, 0x00, 0x00,
  0x10, 0x60, 0x7f, 0x00, 0x00, 0x00, 0x00, 0x00, 0x00, 0x00, 0x00, 0x00, 0x00, 0x00, 0x00, 0x00,
  0x30, 0x20, 0x3f, 0x00, 0x00, 0x00, 0x00, 0x00, 0x00, 0x00, 0x00, 0x00, 0x00, 0x00, 0x00, 0x00,
  0x20, 0x30, 0x3f, 0x00, 0x00, 0x00, 0x00, 0x00, 0x00, 0x00, 0x00, 0x00, 0x00, 0x00, 0x00, 0x00,
  0x20, 0x10, 0x1f, 0x00, 0x00, 0x00, 0x00, 0x00, 0x00, 0x00, 0x00, 0x00, 0x00, 0x00, 0x00, 0x00,
  0x23, 0x11, 0x1f, 0x00, 0x00, 0x00, 0x00, 0x00, 0x00, 0x00, 0x00, 0x00, 0x00, 0x00, 0x00, 0x00,
  0x63, 0x13, 0x11, 0x00, 0x00, 0x00, 0x00, 0x00, 0x00, 0x00, 0x00, 0x00, 0x00, 0x00, 0x00, 0x00,
  0x63, 0x13, 0x11, 0x00, 0x00, 0x00, 0x00, 0x00, 0x00, 0x00, 0x00, 0x00, 0x00, 0x00, 0x00, 0x00,
  0xe3, 0x13, 0x11, 0x00, 0x00, 0x00, 0x00, 0x00, 0x00, 0x00, 0x00, 0x00, 0x00, 0x00, 0x00, 0x00,
  0xe3, 0x13, 0x11, 0x00, 0x00, 0x00, 0x00, 0x00, 0x00, 0x00, 0x00, 0x00, 0x00, 0x00, 0x00, 0x00,
  0xe3, 0x13, 0x11, 0x00, 0x00, 0x00, 0x00, 0x00, 0x00, 0x00, 0x00, 0x00, 0x00, 0x00, 0x00, 0x00,
  0xe3, 0xf1, 0x21, 0x00, 0x00, 0x00, 0x00, 0x00, 0x00, 0x00, 0x00, 0x00, 0x00, 0x00, 0x00, 0x00,
  0xe3, 0xe0, 0x21, 0x00, 0x00, 0x00, 0x00, 0x00, 0x00, 0x00, 0x00, 0x00, 0x00, 0x00, 0x04, 0x00,
  0xe3, 0xf0, 0x21, 0x00, 0xff, 0xf8, 0x30, 0x01, 0xff, 0xff, 0x9f, 0xff, 0x3f, 0xfe, 0x0c, 0x03,
  0xe3, 0x33, 0x11, 0x01, 0xff, 0xfc, 0x78, 0x01, 0xff, 0xff, 0x9f, 0xff, 0x7f, 0xff, 0x7e, 0x03,
  0xe3, 0x13, 0x11, 0x03, 0xff, 0xfc, 0x7e, 0x03, 0xff, 0xff, 0xff, 0xfe, 0xff, 0xff, 0xfe, 0x03,
  0xe3, 0x13, 0x11, 0x03, 0x80, 0x0c, 0x6f, 0x03, 0x70, 0x01, 0xf8, 0x00, 0xe0, 0x03, 0xec, 0x03,
  0xe3, 0x13, 0x11, 0x13, 0x00, 0x0c, 0xe7, 0xc7, 0x70, 0x01, 0xf0, 0x00, 0xc0, 0x03, 0xec, 0x03,
  0xe3, 0x13, 0x11, 0x3b, 0x00, 0x0c, 0xc1, 0xe7, 0x70, 0x01, 0xf0, 0x00, 0xc0, 0x03, 0xe0, 0x03,
  0xe3, 0x13, 0x11, 0x13, 0x7f, 0xfd, 0xd8, 0xf6, 0x7f, 0xff, 0xf0, 0x00, 0xc0, 0x03, 0xe0, 0x03,
  0xe3, 0x13, 0x11, 0x03, 0x7f, 0xfd, 0xdc, 0x6e, 0x7f, 0xff, 0xb0, 0x00, 0xc0, 0x03, 0xe0, 0x03,
  0xe3, 0x13, 0x11, 0x13, 0x00, 0x01, 0x9f, 0x0c, 0x70, 0x00, 0x30, 0x00, 0xc0, 0x03, 0xe0, 0x03,
  0xe0, 0x10, 0x11, 0x3b, 0x00, 0x03, 0x87, 0x8c, 0x70, 0x00, 0x30, 0x00, 0xc0, 0x03, 0xe0, 0x03,
  0xe0, 0x30, 0x11, 0x13, 0x00, 0x03, 0x83, 0xdc, 0x70, 0x00, 0x30, 0x00, 0xe0, 0x03, 0xe0, 0x03,
  0xf0, 0x60, 0x31, 0x03, 0xff, 0xf7, 0x00, 0xf8, 0x7f, 0xff, 0xb0, 0x00, 0xff, 0xfb, 0x7f, 0xff,
  0xf0, 0x60, 0x31, 0x03, 0xff, 0xff, 0x00, 0x78, 0x3f, 0xff, 0xb0, 0x00, 0x7f, 0xfb, 0x7f, 0xff,
  0xff, 0xff, 0xff, 0x01, 0xff, 0xee, 0x00, 0x30, 0x3f, 0xff, 0xb0, 0x00, 0x00, 0x03, 0x00, 0x03,
  0xff, 0xff, 0xfe, 0x00, 0x00, 0x00, 0x00, 0x00, 0x00, 0x00, 0x00, 0x00, 0x00, 0x07, 0x00, 0x03,
  0xff, 0xff, 0xfe, 0x00, 0x00, 0x00, 0x00, 0x00, 0x00, 0x00, 0x00, 0x00, 0x7f, 0xff, 0x7f, 0xff,
  0xff, 0xff, 0xfe, 0x00, 0x00, 0x00, 0x00, 0x00, 0x00, 0x00, 0x00, 0x00, 0x7f, 0xfe, 0x7f, 0xff,
  0x7f, 0xff, 0xfe, 0x00, 0x00, 0x00, 0x00, 0x00, 0x00, 0x00, 0x00, 0x00, 0x7f, 0xfc, 0x3f, 0xfc,
  0x3f, 0xff, 0xfe, 0x00, 0x00, 0x00, 0x00, 0x00, 0x00, 0x00, 0x00, 0x00, 0x00, 0x00, 0x00, 0x00]

/-- Battery Empty icon, `Batt_Empty` (main.c:321-323). -/
def Batt_Empty : List ℕ := [
  0x7f, 0xff, 0x40, 0x01, 0xc0, 0x05, 0xc0, 0x05, 0xc0, 0x05, 0xc0, 0x05, 0x40, 0x01, 0x7f, 0xff]

/-- Battery Low icon, `Batt_Low` (main.c:328-330). -/
def Batt_Low : List ℕ := [
  0x7f, 0xff, 0x40, 0x01, 0xc0, 0x3d, 0xc0, 0x3d, 0xc0, 0x3d, 0xc0, 0x3d, 0x40, 0x01, 0x7f, 0xff]

/-- Battery High icon, `Batt_High` (main.c:335-337). -/
def Batt_High : List ℕ := [
  0x7f, 0xff, 0x40, 0x01, 0xc3, 0xfd, 0xc3, 0xfd, 0xc3, 0xfd, 0xc3, 0xfd, 0x40, 0x01, 0x7f, 0xff]

/-- Battery Full icon, `Batt_Full` (main.c:342-344). -/
def Batt_Full : List ℕ := [
  0x7f, 0xff, 0x40, 0x01, 0xdf, 0xfd, 0xdf, 0xfd, 0xdf, 0xfd, 0xdf, 0xfd, 0x40, 0x01, 0x7f, 0xff]

/-! ## Binary floating point and the C library's `%f` conversion -/

/-- Nearest natural number to a non-negative rational, ties to the even
neighbour: the rounding of binary floating point and of a `%f` conversion. -/
def roundHalfEven (q : ℚ) : ℕ :=
  let f := ⌊q⌋₊
  if q - f < 1 / 2 then f
  else if 1 / 2 < q - f then f + 1
  else if f % 2 = 0 then f else f + 1

/-- Rounding of a non-negative value to the nearest binary floating-point
number with a significand of `p` bits, ties to even: the value is scaled by the
unit in the last place of its binade, rounded to a natural number and scaled
back. The exponent range is not limited; the values rounded in `app_main` are 0
or lie between `2 ^ (-10)` and 8, inside the normal range of `float` and
`double`. -/
def roundToPrecision (p : ℕ) (q : ℚ) : ℚ :=
  if q ≤ 0 then 0
  else
    let ulp : ℚ := 2 ^ (Int.log 2 q + 1 - (p : ℤ))
    roundHalfEven (q / ulp) * ulp

/-- Rounding to the C type `double` (53-bit significand). -/
def toDouble (q : ℚ) : ℚ := roundToPrecision 53 q

/-- Rounding to the C type `float` (24-bit significand). -/
def toFloat (q : ℚ) : ℚ := roundToPrecision 24 q

/-- The `%W.Pf` conversion of `sprintf` on a finite value `x`: a minus sign when
`x` is negative, the integer part of the magnitude rounded to `prec` decimals,
a point and exactly `prec` decimals when `prec` is not zero, the whole padded on
the left with blanks to at least `width` characters. -/
def printf_f (width prec : ℕ) (x : ℚ) : String :=
  let h := roundHalfEven (|x| * 10 ^ prec)
  let sign := if x < 0 then "-" else ""
  let frac := if prec = 0 then "" else "." ++ String.leftpad prec '0' (toString (h % 10 ^ prec))
  String.leftpad width ' ' (sign ++ toString (h / 10 ^ prec) ++ frac)

/-- A value of the C type `float`: a NaN or an infinity with its sign bit,
negative zero, or a finite value (`finite 0` is positive zero). -/
inductive CFloat where
  | nan (sign : Bool)
  | inf (sign : Bool)
  | negZero
  | finite (value : ℚ)
  deriving DecidableEq

/-- The C comparison `c < x` of a finite constant `c` with a `float` `x`: false
when `x` is a NaN. -/
def CFloat.const_lt (c : ℚ) : CFloat → Bool
  | .nan _ => false
  | .inf sign => !sign
  | .negZero => decide (c < 0)
  | .finite value => decide (c < value)

/-- The C comparison `x <= c` of a `float` `x` with a finite constant `c`: false
when `x` is a NaN. -/
def CFloat.le_const (x : CFloat) (c : ℚ) : Bool :=
  match x with
  | .nan _ => false
  | .inf sign => sign
  | .negZero => decide (0 ≤ c)
  | .finite value => decide (value ≤ c)

/-- The `%W.Pf` conversion of `sprintf` on any `float`: `nan` and `inf` with a
minus sign when the sign bit is set, negative zero with a minus sign and zero
digits, a finite value as `printf_f` does; all padded on the left with blanks
to at least `width` characters. -/
def printf_f_float (width prec : ℕ) : CFloat → String
  | .nan sign => String.leftpad width ' ' ((if sign then "-" else "") ++ "nan")
  | .inf sign => String.leftpad width ' ' ((if sign then "-" else "") ++ "inf")
  | .negZero =>
      String.leftpad width ' ' ("-" ++ toString (0 : ℕ) ++
        if prec = 0 then "" else "." ++ String.leftpad prec '0' (toString (0 : ℕ)))
  | .finite value => printf_f width prec value

/-- The decimal text of `h` hundredths: integer part, point, two decimals. -/
def twoDecimals (h : ℕ) : String :=
  toString (h / 100) ++ "." ++ String.leftpad 2 '0' (toString (h % 100))

/-! ## The telemetry loop (main.c:402-436) -/

/-- A call of `app_main` on the display driver, with the arguments written at
the call site (the `&dev` argument is the same everywhere and is left out). -/
inductive DisplayCall where
  | ssd1306_display_text (page : ℕ) (text : String) (text_len : ℕ) (invert : Bool)
  | ssd1306_bitmaps (xpos ypos : ℕ) (bitmap : List ℕ) (width height : ℕ) (invert : Bool)
  deriving DecidableEq

/-- What happened on the two-wire bus during one call of
`max17043_read_register_soc`: the transaction delivered a value, or it failed. -/
inductive BusOutcome where
  | ack (value : ℚ)
  | fail
  deriving DecidableEq

/-- A possible gauge helper, used as an example: it returns the value the bus
delivered, and 0 when the transaction failed. -/
def zero_on_fail : BusOutcome → ℚ
  | .ack value => value
  | .fail => 0

namespace app_main

/-- Capacity of the text buffer: `char lineChar[20]` (main.c:351). -/
def lineChar_size : ℕ := 20

/-- The statement `voltage = ((voltageRaw >> 4) * 0.00125);` (main.c:408). The
constant `0.00125` is a `double`, the shifted integer converts to `double`
exactly, the product is rounded to `double` and the assignment to the `float`
variable rounds it once more. -/
def voltage (voltageRaw : ℕ) : ℚ :=
  toFloat (toDouble (((voltageRaw >>> 4 : ℕ) : ℚ) * toDouble 0.00125))

/-- The statement `if (100 < soc) { soc = 100.00; }` (main.c:409-412), as a
function of the value the gauge read returned, for a finite value
(`soc_float` covers every `float`). -/
def soc (soc : ℚ) : ℚ :=
  if 100 < soc then 100.00 else soc

/-- The string that `sprintf(&lineChar, "%3.2fV\t\t%6.2f%%", voltage, soc)`
writes (main.c:414), without its terminating NUL. -/
def lineChar (voltage soc : ℚ) : String :=
  printf_f 3 2 voltage ++ "V\t\t" ++ printf_f 6 2 soc ++ "%"

/-- The `if` / `else if` chain on `soc` (main.c:416-433): the driver calls it
makes, none when no branch is taken. -/
def icon_chain (soc : ℚ) : List DisplayCall :=
  if soc ≤ 25.00 then
    [DisplayCall.ssd1306_bitmaps 112 0 Batt_Empty 16 8 false]
  else if soc ≤ 50.00 then
    [DisplayCall.ssd1306_bitmaps 112 0 Batt_Low 16 8 false]
  else if soc ≤ 75.00 then
    [DisplayCall.ssd1306_bitmaps 112 0 Batt_High 16 8 false]
  else if soc ≤ 100.00 then
    [DisplayCall.ssd1306_bitmaps 112 0 Batt_Full 16 8 false]
  else
    []

/-- The render part of one iteration (main.c:414-433) for the values held by
`voltage` and `soc`: the text draw on page 0 followed by the icon chain. -/
def render (voltage soc : ℚ) : List DisplayCall :=
  let lineChar := app_main.lineChar voltage soc
  DisplayCall.ssd1306_display_text 0 lineChar lineChar.length false :: icon_chain soc

/-- One iteration of `while (1)` (main.c:406-433): `socRead` is the value
returned by `max17043_read_register_soc(0x04)`, a finite one (`loop_body_float`
covers every `float`), `voltageRaw` the value stored in the `uint16_t` of that
name. The result is the sequence of driver calls. -/
def loop_body (socRead : ℚ) (voltageRaw : ℕ) : List DisplayCall :=
  let voltage := app_main.voltage voltageRaw
  let soc := app_main.soc socRead
  render voltage soc

/-- The statement `if (100 < soc) { soc = 100.00; }` (main.c:409-412) on any
value of the `float` variable `soc`. -/
def soc_float (soc : CFloat) : CFloat :=
  if CFloat.const_lt 100 soc then CFloat.finite 100.00 else soc

/-- The string that `sprintf(&lineChar, "%3.2fV\t\t%6.2f%%", voltage, soc)`
writes (main.c:414) for any value of the `float` variable `soc`. -/
def lineChar_float (voltage : ℚ) (soc : CFloat) : String :=
  printf_f 3 2 voltage ++ "V\t\t" ++ printf_f_float 6 2 soc ++ "%"

/-- The `if` / `else if` chain (main.c:416-433) on any value of the `float`
variable `soc`: the driver calls it makes, none when no branch is taken. -/
def icon_chain_float (soc : CFloat) : List DisplayCall :=
  if soc.le_const 25.00 then
    [DisplayCall.ssd1306_bitmaps 112 0 Batt_Empty 16 8 false]
  else if soc.le_const 50.00 then
    [DisplayCall.ssd1306_bitmaps 112 0 Batt_Low 16 8 false]
  else if soc.le_const 75.00 then
    [DisplayCall.ssd1306_bitmaps 112 0 Batt_High 16 8 false]
  else if soc.le_const 100.00 then
    [DisplayCall.ssd1306_bitmaps 112 0 Batt_Full 16 8 false]
  else
    []

/-- One iteration of `while (1)` (main.c:406-433) for any `float` returned by
`max17043_read_register_soc(0x04)`: the sequence of driver calls. On a finite
value it is `loop_body`. -/
def loop_body_float (socRead : CFloat) (voltageRaw : ℕ) : List DisplayCall :=
  let voltage := app_main.voltage voltageRaw
  let soc := soc_float socRead
  let lineChar := lineChar_float voltage soc
  DisplayCall.ssd1306_display_text 0 lineChar lineChar.length false :: icon_chain_float soc

/-- The start-up call `ssd1306_bitmaps(&dev, 0, 0, cbi_logo, 128, 32, false)`
(main.c:399), the only blit outside the loop. -/
def splash_logo : DisplayCall :=
  DisplayCall.ssd1306_bitmaps 0 0 cbi_logo 128 32 false

/-- The branch of the `if` / `else if` chain on `soc` (main.c:416-433) that is
taken, counted from 0 in program order (`Batt_Empty`, `Batt_Low`, `Batt_High`,
`Batt_Full`); 4 when no branch is taken. -/
def band (soc : ℚ) : ℕ :=
  if soc ≤ 25.00 then 0
  else if soc ≤ 50.00 then 1
  else if soc ≤ 75.00 then 2
  else if soc ≤ 100.00 then 3
  else 4

/-- One iteration of `while (1)` seen from the bus. The call
`soc = max17043_read_register_soc(0x04)` (main.c:406) yields a `float` whatever
happened on the bus; the helper is not defined in main.c, so the value it
returns for each outcome is the parameter `max17043_read_register_soc`. -/
def iteration (max17043_read_register_soc : BusOutcome → ℚ) (outcome : BusOutcome)
    (voltageRaw : ℕ) : List DisplayCall :=
  loop_body (max17043_read_register_soc outcome) voltageRaw

/-- The driver calls of the first `n` iterations of `while (1)` (main.c:404-436),
iteration `i` seeing the bus outcome `outcomes i` and the raw voltage `raws i`. -/
def telemetry_loop (max17043_read_register_soc : BusOutcome → ℚ) (outcomes : ℕ → BusOutcome)
    (raws : ℕ → ℕ) : ℕ → List DisplayCall
  | 0 => []
  | n + 1 => telemetry_loop max17043_read_register_soc outcomes raws n ++
      iteration max17043_read_register_soc (outcomes n) (raws n)

end app_main

/-! ## The fuel gauge

`max17043_read_register_soc` is called at main.c:406 and is not defined in
main.c. The values it can return are modelled from the specification of the
fuel-gauge reader. -/

/-- Modelled from the spec: the values `max17043_read_register_soc` returns.
The body of the helper is missing. The spec gives the state-of-charge register
as an unsigned value in 0-255 and states that values below 0 do not occur from
this gauge; so the call returns a finite value that is not negative (nor
negative zero) and is at most 255. -/
def max17043_read_register_soc_returns : CFloat → Bool
  | .finite value => decide (0 ≤ value) && decide (value ≤ 255)
  | _ => false

/-! ## The display driver

`ssd1306_display_text` and `ssd1306_bitmaps` are declared in `ssd1306.h` and are
not defined in main.c. Their effect on the pixel surface is modelled from the
specification of the display renderer. -/

/-- Modelled from the spec: the DisplaySurface, the live pixel buffer of the
panel, as the state (lit or dark) of the pixel in column `x` and row `y`. -/
abbrev Surface := ℕ → ℕ → Bool

/-- Modelled from the spec: the pixels a driver call covers. The body of
`ssd1306_display_text` is missing; a text line drawn on text row `page` with the
8x8 font covers the 8 pixel rows of that text row and 8 columns for each of its
`text_len` characters, starting at column 0. The body of `ssd1306_bitmaps` is
missing; a blit covers the `width` x `height` pixel rectangle whose top-left
corner is (`xpos`, `ypos`). -/
def DisplayCall.covers : DisplayCall → ℕ → ℕ → Bool
  | .ssd1306_display_text page _ text_len _, x, y =>
      decide (y / 8 = page) && decide (x < 8 * text_len)
  | .ssd1306_bitmaps xpos ypos _ width height _, x, y =>
      decide (xpos ≤ x) && decide (x < xpos + width) &&
        decide (ypos ≤ y) && decide (y < ypos + height)

/-- Modelled from the spec: the state a driver call gives to a pixel it covers.
The glyph table of `font8x8_basic.h` is missing and is the parameter `font`
(the byte of character `c` for glyph column `i`, one bit per glyph row); a
bitmap is packed one bit per pixel, row after row, most significant bit
first. `invert` flips the state. -/
def DisplayCall.pixel (font : Char → ℕ → ℕ) : DisplayCall → ℕ → ℕ → Bool
  | .ssd1306_display_text _ text _ invert, x, y =>
      xor (Nat.testBit (font (text.data.getD (x / 8) ' ') (x % 8)) (y % 8)) invert
  | .ssd1306_bitmaps xpos ypos bitmap width _ invert, x, y =>
      xor (Nat.testBit (bitmap.getD ((y - ypos) * (width / 8) + (x - xpos) / 8) 0)
        (7 - (x - xpos) % 8)) invert

/-- Modelled from the spec: a driver call overwrites the prior content of the
pixels it covers and leaves every other pixel untouched. -/
def DisplayCall.draw (font : Char → ℕ → ℕ) (call : DisplayCall) (dev : Surface) : Surface :=
  fun x y => if call.covers x y then call.pixel font x y else dev x y

/-- The surface after a sequence of driver calls, in program order. -/
def Surface.run (font : Char → ℕ → ℕ) (dev : Surface) (calls : List DisplayCall) : Surface :=
  calls.foldl (fun d call => call.draw font d) dev

/-! ## Auxiliary lemmas -/

theorem roundHalfEven_natCast (n : ℕ) : roundHalfEven (n : ℚ) = n := by
  simp [roundHalfEven]

theorem roundHalfEven_cases (q : ℚ) :
    roundHalfEven q = ⌊q⌋₊ ∨ (roundHalfEven q = ⌊q⌋₊ + 1 ∧ 1 / 2 ≤ q - ⌊q⌋₊) := by
  unfold roundHalfEven
  simp only
  split_ifs with h1 h2 h3
  · exact Or.inl rfl
  · exact Or.inr ⟨rfl, h2.le⟩
  · exact Or.inl rfl
  · exact Or.inr ⟨rfl, not_lt.mp h1⟩

/-- The rounded value is within one half of the exact value. -/
theorem abs_roundHalfEven_sub_le (q : ℚ) (hq : 0 ≤ q) :
    |(roundHalfEven q : ℚ) - q| ≤ 1 / 2 := by
  have h1 : (⌊q⌋₊ : ℚ) ≤ q := Nat.floor_le hq
  have h2 : q < (⌊q⌋₊ : ℚ) + 1 := Nat.lt_floor_add_one q
  rw [abs_le]
  rcases roundHalfEven_cases q with h | ⟨h, h3⟩
  · have h4 : q - ⌊q⌋₊ ≤ 1 / 2 := by
      by_contra hc
      have hc2 : 1 / 2 < q - (⌊q⌋₊ : ℚ) := not_le.mp hc
      have : roundHalfEven q = ⌊q⌋₊ + 1 := by
        unfold roundHalfEven
        simp only
        rw [if_neg (not_lt.mpr hc2.le), if_pos hc2]
      omega
    rw [h]
    constructor <;> linarith
  · rw [h]
    push_cast
    constructor <;> linarith

/-- Rounding does not pass a natural number `n` when the exact value is below
`n + 1/2`. -/
theorem roundHalfEven_le_of_lt (q : ℚ) (n : ℕ) (hq : 0 ≤ q) (h : q < n + 1 / 2) :
    roundHalfEven q ≤ n := by
  have h1 : (⌊q⌋₊ : ℚ) ≤ q := Nat.floor_le hq
  rcases roundHalfEven_cases q with h2 | ⟨h2, h3⟩
  · rw [h2]
    have h4 : (⌊q⌋₊ : ℚ) < ((n + 1 : ℕ) : ℚ) := by push_cast; linarith
    have h5 : ⌊q⌋₊ < n + 1 := by exact_mod_cast h4
    omega
  · rw [h2]
    have h4 : (⌊q⌋₊ : ℚ) < (n : ℚ) := by linarith
    have h5 : ⌊q⌋₊ < n := by exact_mod_cast h4
    omega

/-- Rounding gives `m` when the exact value is strictly within one half of `m`. -/
theorem roundHalfEven_eq_of_lt (x : ℚ) (m : ℕ) (hx : 0 ≤ x) (h1 : (m : ℚ) - 1 / 2 < x)
    (h2 : x < m + 1 / 2) : roundHalfEven x = m := by
  have h := abs_roundHalfEven_sub_le x hx
  rw [abs_le] at h
  have h3 : ((roundHalfEven x : ℕ) : ℚ) < ((m + 1 : ℕ) : ℚ) := by push_cast; linarith [h.2]
  have h4 : ((m : ℕ) : ℚ) < ((roundHalfEven x + 1 : ℕ) : ℚ) := by push_cast; linarith [h.1]
  have h5 : roundHalfEven x < m + 1 := by exact_mod_cast h3
  have h6 : m < roundHalfEven x + 1 := by exact_mod_cast h4
  omega

theorem roundToPrecision_nonneg (p : ℕ) (q : ℚ) : 0 ≤ roundToPrecision p q := by
  unfold roundToPrecision
  split_ifs
  · exact le_rfl
  · positivity

theorem roundToPrecision_zero (p : ℕ) : roundToPrecision p 0 = 0 := by
  unfold roundToPrecision
  rw [if_pos le_rfl]

/-- Rounding to `p` bits changes a value by at most the fraction `2 ^ (-p)` of
it. -/
theorem roundToPrecision_abs_sub_le (p : ℕ) (q : ℚ) (hq : 0 ≤ q) :
    |roundToPrecision p q - q| ≤ q / 2 ^ p := by
  rcases hq.eq_or_lt with h0 | hpos
  · rw [← h0, roundToPrecision_zero]
    simp
  · unfold roundToPrecision
    rw [if_neg (not_le.mpr hpos)]
    simp only
    set e := Int.log 2 q with he
    have hulp : (0 : ℚ) < 2 ^ (e + 1 - (p : ℤ)) := by positivity
    have hlog : ((2 : ℕ) : ℚ) ^ e ≤ q := Int.zpow_log_le_self (by norm_num) hpos
    have hsplit : (2 : ℚ) ^ (e + 1 - (p : ℤ)) = 2 ^ e * 2 / 2 ^ p := by
      rw [zpow_sub₀ (by norm_num), zpow_add₀ (by norm_num), zpow_one, zpow_natCast]
    have hm := abs_roundHalfEven_sub_le (q / 2 ^ (e + 1 - (p : ℤ))) (by positivity)
    have hfac : (roundHalfEven (q / 2 ^ (e + 1 - (p : ℤ))) : ℚ) * 2 ^ (e + 1 - (p : ℤ)) - q =
        ((roundHalfEven (q / 2 ^ (e + 1 - (p : ℤ))) : ℚ) - q / 2 ^ (e + 1 - (p : ℤ))) *
          2 ^ (e + 1 - (p : ℤ)) := by
      field_simp
    rw [hfac, abs_mul, abs_of_pos hulp]
    calc |(roundHalfEven (q / 2 ^ (e + 1 - (p : ℤ))) : ℚ) - q / 2 ^ (e + 1 - (p : ℤ))| *
          2 ^ (e + 1 - (p : ℤ)) ≤ 1 / 2 * 2 ^ (e + 1 - (p : ℤ)) :=
          mul_le_mul_of_nonneg_right hm hulp.le
      _ = 2 ^ e / 2 ^ p := by rw [hsplit]; ring
      _ ≤ q / 2 ^ p := by
          apply div_le_div_of_nonneg_right _ (by positivity)
          exact_mod_cast hlog

/-- Evaluation of the rounding once the binade `[2 ^ e, 2 ^ (e + 1))` of the
value and the rounded significand `m` are known. -/
theorem roundToPrecision_eq_of (p : ℕ) (q : ℚ) (e : ℤ) (m : ℕ) (hq : 0 < q)
    (hlo : (2 : ℚ) ^ e ≤ q) (hhi : q < 2 ^ (e + 1))
    (hm : roundHalfEven (q / 2 ^ (e + 1 - (p : ℤ))) = m) :
    roundToPrecision p q = m * 2 ^ (e + 1 - (p : ℤ)) := by
  have hlog : Int.log 2 q = e := by
    apply le_antisymm
    · have := (Int.lt_zpow_iff_log_lt (R := ℚ) (b := 2) (by norm_num) hq).mp
        (by exact_mod_cast hhi)
      omega
    · exact (Int.zpow_le_iff_le_log (R := ℚ) (b := 2) (by norm_num) hq).mp
        (by exact_mod_cast hlo)
  unfold roundToPrecision
  rw [if_neg (not_le.mpr hq)]
  simp only [hlog, hm]

/-- The `double` constant `0.00125` is `5764607523034235 / 2 ^ 62`. -/
theorem toDouble_const : toDouble 0.00125 = 5764607523034235 / 2 ^ 62 := by
  unfold toDouble
  rw [roundToPrecision_eq_of 53 0.00125 (-10) 5764607523034235 (by norm_num) (by norm_num)
    (by norm_num)]
  · norm_num
  · apply roundHalfEven_eq_of_lt <;> norm_num

theorem toString_length_le (n e : ℕ) (he : 0 < e) (h : n < 10 ^ e) :
    (toString n).length ≤ e :=
  Nat.repr_length n e he h

theorem toString_length_digit (n : ℕ) (h : n < 10) : (toString n).length = 1 := by
  interval_cases n <;> rfl

theorem twoDecimals_frac_length (h : ℕ) :
    (String.leftpad 2 '0' (toString (h % 100))).length = 2 := by
  have hfrac : (toString (h % 100)).length ≤ 2 :=
    toString_length_le _ 2 (by norm_num) (Nat.mod_lt _ (by norm_num))
  rw [String.leftpad_length, max_eq_left hfrac]

theorem twoDecimals_length (h : ℕ) :
    (twoDecimals h).length = (toString (h / 100)).length + 3 := by
  have h1 : ".".length = 1 := rfl
  unfold twoDecimals
  rw [String.length_append, String.length_append, twoDecimals_frac_length, h1]

/-- The `%W.2f` conversion splits into padding, sign and the two-decimal text of
the rounded hundredths. -/
theorem printf_f_two_eq (width : ℕ) (x : ℚ) :
    printf_f width 2 x =
      String.leftpad width ' '
        ((if x < 0 then "-" else "") ++ twoDecimals (roundHalfEven (|x| * 100))) := by
  have h3 : ¬ (2 = 0) := by norm_num
  have h100 : (10 : ℚ) ^ 2 = 100 := by norm_num
  have h100n : (10 : ℕ) ^ 2 = 100 := by norm_num
  unfold printf_f twoDecimals
  simp only [if_neg h3, h100, h100n, String.append_assoc]

theorem printf_f_two_length (width : ℕ) (x : ℚ) :
    (printf_f width 2 x).length =
      max width ((if x < 0 then 1 else 0) +
        ((toString (roundHalfEven (|x| * 100) / 100)).length + 3)) := by
  have h2 : (if x < 0 then "-" else "").length = if x < 0 then 1 else 0 := by
    split_ifs <;> rfl
  rw [printf_f_two_eq, String.leftpad_length, String.length_append, twoDecimals_length, h2]

/-- The `%W.2f` conversion of an integer value. -/
theorem printf_f_two_int (width : ℕ) (z : ℤ) :
    printf_f width 2 (z : ℚ) =
      String.leftpad width ' ' ((if z < 0 then "-" else "") ++ twoDecimals (z.natAbs * 100)) := by
  have h : |(z : ℚ)| * 100 = ((z.natAbs * 100 : ℕ) : ℚ) := by
    push_cast
    rw [Nat.cast_natAbs, Int.cast_abs]
  rw [printf_f_two_eq, h, roundHalfEven_natCast]
  simp only [Int.cast_lt_zero]

/-- A pixel that no call of the sequence covers keeps its state. -/
theorem Surface.run_of_not_covered (font : Char → ℕ → ℕ) (x y : ℕ) :
    ∀ (calls : List DisplayCall) (dev : Surface),
      (∀ c ∈ calls, c.covers x y = false) → Surface.run font dev calls x y = dev x y := by
  intro calls
  induction calls with
  | nil => intro dev _; rfl
  | cons c rest ih =>
    intro dev h
    have hc : c.covers x y = false := h c (List.mem_cons_self _ _)
    have hrest : ∀ c' ∈ rest, c'.covers x y = false :=
      fun c' hc' => h c' (List.mem_cons_of_mem _ hc')
    show Surface.run font (c.draw font dev) rest x y = dev x y
    rw [ih (c.draw font dev) hrest]
    simp [DisplayCall.draw, hc]

/-- A pixel that some call of the sequence covers gets a state that does not
depend on the surface the sequence started from. -/
theorem Surface.run_of_covered (font : Char → ℕ → ℕ) (x y : ℕ) :
    ∀ (calls : List DisplayCall) (dev dev' : Surface),
      (∃ c ∈ calls, c.covers x y = true) →
        Surface.run font dev calls x y = Surface.run font dev' calls x y := by
  intro calls
  induction calls with
  | nil =>
    intro dev dev' h
    obtain ⟨c, hc, _⟩ := h
    simp at hc
  | cons c rest ih =>
    intro dev dev' _
    show Surface.run font (c.draw font dev) rest x y = Surface.run font (c.draw font dev') rest x y
    by_cases hrest : ∃ c' ∈ rest, c'.covers x y = true
    · exact ih _ _ hrest
    · have hnot : ∀ c' ∈ rest, c'.covers x y = false := by
        intro c' hc'
        by_contra hcov
        exact hrest ⟨c', hc', by simpa using hcov⟩
      have hc : c.covers x y = true := by
        obtain ⟨c₀, hc₀, hcov⟩ := ‹∃ c₀ ∈ c :: rest, c₀.covers x y = true›
        rcases List.mem_cons.mp hc₀ with rfl | hmem
        · exact hcov
        · rw [hnot c₀ hmem] at hcov
          cases hcov
      rw [Surface.run_of_not_covered font x y rest _ hnot,
        Surface.run_of_not_covered font x y rest _ hnot]
      simp [DisplayCall.draw, hc]

/-- Running a sequence of driver calls a second time changes nothing. -/
theorem Surface.run_run (font : Char → ℕ → ℕ) (dev : Surface) (calls : List DisplayCall) :
    Surface.run font (Surface.run font dev calls) calls = Surface.run font dev calls := by
  funext x y
  by_cases h : ∃ c ∈ calls, c.covers x y = true
  · exact Surface.run_of_covered font x y calls _ _ h
  · apply Surface.run_of_not_covered
    intro c hc
    by_contra hcov
    exact h ⟨c, hc, by simpa using hcov⟩

namespace app_main

theorem soc_eq_min (s : ℚ) : soc s = min s 100 := by
  unfold soc
  split_ifs with h
  · rw [min_eq_right h.le]; norm_num
  · rw [min_eq_left (not_lt.mp h)]

theorem soc_le (s : ℚ) : soc s ≤ 100 := by
  rw [soc_eq_min]
  exact min_le_right _ _

theorem icon_chain_of_le (q : ℚ) (hq : q ≤ 100) :
    icon_chain q =
      [DisplayCall.ssd1306_bitmaps 112 0
        (if q ≤ 25 then Batt_Empty else if q ≤ 50 then Batt_Low
          else if q ≤ 75 then Batt_High else Batt_Full) 16 8 false] := by
  unfold icon_chain
  norm_num
  split_ifs <;> rfl

/-- The chain blits the icon of the branch that `band` names. -/
theorem icon_chain_eq_band (q : ℚ) (hq : q ≤ 100) :
    icon_chain q =
      [DisplayCall.ssd1306_bitmaps 112 0
        ([Batt_Empty, Batt_Low, Batt_High, Batt_Full].getD (band q) []) 16 8 false] := by
  unfold icon_chain band
  norm_num
  split_ifs <;> rfl

/-- The branch index does not decrease when the percentage grows. -/
theorem band_mono (p q : ℚ) (hpq : p ≤ q) : band p ≤ band q := by
  unfold band
  norm_num
  split_ifs <;> first | omega | (exfalso; linarith)

theorem band_lt_four (q : ℚ) (hq : q ≤ 100) : band q < 4 := by
  unfold band
  norm_num
  split_ifs <;> omega

/-- The calls of one iteration: the text draw, then the blit of one icon. -/
theorem loop_body_eq (s : ℚ) (raw : ℕ) :
    loop_body s raw =
      [DisplayCall.ssd1306_display_text 0 (lineChar (voltage raw) (soc s))
        (lineChar (voltage raw) (soc s)).length false,
       DisplayCall.ssd1306_bitmaps 112 0
        ([Batt_Empty, Batt_Low, Batt_High, Batt_Full].getD (band (soc s)) []) 16 8 false] := by
  simp only [loop_body, render, icon_chain_eq_band _ (soc_le s)]

/-- The stored voltage is within the fraction `2 ^ (-23)` of the exact product
`(raw >> 4) * 0.00125`. -/
theorem voltage_rel_error (raw : ℕ) :
    |voltage raw - ((raw >>> 4 : ℕ) : ℚ) * 0.00125| ≤
      ((raw >>> 4 : ℕ) : ℚ) * 0.00125 / 2 ^ 23 := by
  set n : ℚ := ((raw >>> 4 : ℕ) : ℚ) with hn
  have hn0 : 0 ≤ n := by positivity
  have hc := roundToPrecision_abs_sub_le 53 0.00125 (by norm_num)
  have hc0 := roundToPrecision_nonneg 53 0.00125
  set c := roundToPrecision 53 0.00125 with hcdef
  have hd := roundToPrecision_abs_sub_le 53 (n * c) (by positivity)
  have hd0 := roundToPrecision_nonneg 53 (n * c)
  set d := roundToPrecision 53 (n * c) with hddef
  have hv := roundToPrecision_abs_sub_le 24 d hd0
  have hvolt : voltage raw = roundToPrecision 24 d := rfl
  rw [hvolt]
  set v := roundToPrecision 24 d
  rw [abs_le] at hc hd hv ⊢
  have hnc1 : n * c ≤ n * (0.00125 + 0.00125 / 2 ^ 53) :=
    mul_le_mul_of_nonneg_left (by linarith [hc.2]) hn0
  have hnc2 : n * (0.00125 - 0.00125 / 2 ^ 53) ≤ n * c :=
    mul_le_mul_of_nonneg_left (by linarith [hc.1]) hn0
  norm_num at hc hd hv hnc1 hnc2 ⊢
  constructor <;> linarith [hd.1, hd.2, hv.1, hv.2]

theorem voltage_nonneg (raw : ℕ) : 0 ≤ voltage raw :=
  roundToPrecision_nonneg 24 _

theorem voltage_le (raw : ℕ) (h : raw ≤ 65535) : voltage raw ≤ 512 / 100 := by
  have herr := voltage_rel_error raw
  rw [Nat.shiftRight_eq_div_pow] at herr
  have h1 : raw / 2 ^ 4 ≤ 4095 := by omega
  have h2 : ((raw / 2 ^ 4 : ℕ) : ℚ) ≤ 4095 := by exact_mod_cast h1
  have h3 : (0 : ℚ) ≤ ((raw / 2 ^ 4 : ℕ) : ℚ) := by positivity
  rw [abs_le] at herr
  norm_num at herr ⊢
  linarith [herr.2]

/-- The voltage field of the text line is always four characters wide. -/
theorem printf_voltage_length (raw : ℕ) (h : raw ≤ 65535) :
    (printf_f 3 2 (voltage raw)).length = 4 := by
  have h0 := voltage_nonneg raw
  have h1 := voltage_le raw h
  have hr : roundHalfEven (|voltage raw| * 100) ≤ 512 := by
    apply roundHalfEven_le_of_lt _ _ (by positivity)
    rw [abs_of_nonneg h0]
    push_cast
    linarith
  have hd : (toString (roundHalfEven (|voltage raw| * 100) / 100)).length = 1 :=
    toString_length_digit _ (by omega)
  rw [printf_f_two_length, hd, if_neg (not_lt.mpr h0)]
  rfl

/-- The percentage field is six characters wide for a value in `[0, 100]`. -/
theorem printf_soc_length (p : ℚ) (h0 : 0 ≤ p) (h1 : p ≤ 100) :
    (printf_f 6 2 p).length = 6 := by
  have hr : roundHalfEven (|p| * 100) ≤ 10000 := by
    apply roundHalfEven_le_of_lt _ _ (by positivity)
    rw [abs_of_nonneg h0]
    push_cast
    linarith
  have hd : (toString (roundHalfEven (|p| * 100) / 100)).length ≤ 3 :=
    toString_length_le _ 3 (by norm_num) (by omega)
  rw [printf_f_two_length, if_neg (not_lt.mpr h0)]
  omega

theorem voltage_zero : voltage 0 = ((0 : ℤ) : ℚ) := by
  have hshift : (0 >>> 4 : ℕ) = 0 := rfl
  unfold voltage toFloat toDouble
  rw [hshift]
  simp only [Nat.cast_zero, zero_mul, roundToPrecision_zero, Int.cast_zero]

/-- The voltage stored for the raw value 38464 is just above 3.005, where the
exact product `2404 * 0.00125` is 3.005: the line shows `3.01V`. -/
theorem voltage_38464 :
    voltage 38464 = 3150971 / 1048576 ∧ printf_f 3 2 (voltage 38464) = "3.01" := by
  have hshift : (38464 >>> 4 : ℕ) = 2404 := by decide
  have hv : voltage 38464 = 3150971 / 1048576 := by
    unfold voltage
    rw [hshift, toDouble_const]
    have hd : toDouble (((2404 : ℕ) : ℚ) * (5764607523034235 / 2 ^ 62)) =
        6766658440124170 / 2 ^ 51 := by
      unfold toDouble
      rw [roundToPrecision_eq_of 53 _ 1 6766658440124170 (by norm_num) (by norm_num)
        (by norm_num)]
      · norm_num
      · apply roundHalfEven_eq_of_lt <;> norm_num
    rw [hd]
    unfold toFloat
    rw [roundToPrecision_eq_of 24 _ 1 12603884 (by norm_num) (by norm_num) (by norm_num)]
    · norm_num
    · apply roundHalfEven_eq_of_lt <;> norm_num
  refine ⟨hv, ?_⟩
  rw [hv, printf_f_two_eq]
  have hr : roundHalfEven (|(3150971 / 1048576 : ℚ)| * 100) = 301 := by
    apply roundHalfEven_eq_of_lt
    · positivity
    · rw [abs_of_nonneg (by norm_num)]
      norm_num
    · rw [abs_of_nonneg (by norm_num)]
      norm_num
  rw [hr, if_neg (by norm_num)]
  decide

theorem lineChar_length (v p : ℚ) :
    (lineChar v p).length = (printf_f 3 2 v).length + 3 + (printf_f 6 2 p).length + 1 := by
  have h1 : "V\t\t".length = 3 := rfl
  have h2 : "%".length = 1 := rfl
  unfold lineChar
  simp only [String.length_append, h1, h2]

/-- The loop has no lower clamp: a negative value passes the clamp unchanged. -/
theorem soc_of_neg (s : ℚ) (h : s < 0) : soc s = s := by
  rw [soc_eq_min]
  exact min_eq_left (by linarith)

theorem soc_nonneg (s : ℚ) (h : 0 ≤ s) : 0 ≤ soc s := by
  rw [soc_eq_min]
  exact le_min h (by norm_num)

/-- The line with its terminating NUL fits the buffer for every value of `soc`
above `-9999999.995`. -/
theorem lineChar_length_le (raw : ℕ) (s : ℚ) (hraw : raw ≤ 65535)
    (hs : -9999999995 / 1000 < s) :
    (lineChar (voltage raw) (soc s)).length + 1 ≤ lineChar_size := by
  have hv := printf_voltage_length raw hraw
  have hlen := lineChar_length (voltage raw) (soc s)
  have hle := soc_le s
  have hlow : -9999999995 / 1000 < soc s := by
    rw [soc_eq_min]
    exact lt_min hs (by norm_num)
  have habs : |soc s| < 9999999995 / 1000 := by
    rw [abs_lt]
    constructor <;> linarith
  have hr : roundHalfEven (|soc s| * 100) ≤ 999999999 := by
    apply roundHalfEven_le_of_lt _ _ (by positivity)
    push_cast
    linarith
  have hd : (toString (roundHalfEven (|soc s| * 100) / 100)).length ≤ 7 :=
    toString_length_le _ 7 (by norm_num) (by omega)
  have hp : (printf_f 6 2 (soc s)).length ≤ 11 := by
    rw [printf_f_two_length]
    split_ifs <;> omega
  unfold lineChar_size
  omega

/-- The line has 14 characters for every value of `soc` that is not negative. -/
theorem lineChar_length_of_nonneg (raw : ℕ) (s : ℚ) (hraw : raw ≤ 65535) (h0 : 0 ≤ s) :
    (lineChar (voltage raw) (soc s)).length = 14 := by
  rw [lineChar_length, printf_voltage_length raw hraw,
    printf_soc_length (soc s) (soc_nonneg s h0) (soc_le s)]

/-- On a finite value the clamp on `float`s is the clamp on its value. -/
theorem soc_float_finite (q : ℚ) : soc_float (CFloat.finite q) = CFloat.finite (soc q) := by
  unfold soc_float soc CFloat.const_lt
  simp only [decide_eq_true_eq]
  split_ifs <;> rfl

theorem lineChar_float_finite (v p : ℚ) : lineChar_float v (CFloat.finite p) = lineChar v p :=
  rfl

theorem icon_chain_float_finite (p : ℚ) : icon_chain_float (CFloat.finite p) = icon_chain p := by
  unfold icon_chain_float icon_chain CFloat.le_const
  simp only [decide_eq_true_eq]

/-- On a finite value the iteration on `float`s is `loop_body`. -/
theorem loop_body_float_finite (q : ℚ) (raw : ℕ) :
    loop_body_float (CFloat.finite q) raw = loop_body q raw := by
  simp only [loop_body_float, loop_body, render, soc_float_finite, lineChar_float_finite,
    icon_chain_float_finite]

/-- A NaN passes the clamp and fails every comparison of the chain: the text
is drawn and no icon is blitted. -/
theorem loop_body_float_nan (sign : Bool) (raw : ℕ) :
    loop_body_float (CFloat.nan sign) raw =
      [DisplayCall.ssd1306_display_text 0
        (lineChar_float (voltage raw) (CFloat.nan sign))
        (lineChar_float (voltage raw) (CFloat.nan sign)).length false] :=
  rfl

end app_main

/-- A value the gauge read returns is finite, not negative and at most 255. -/
theorem max17043_read_register_soc_returns_finite (r : CFloat)
    (h : max17043_read_register_soc_returns r = true) :
    ∃ q : ℚ, r = CFloat.finite q ∧ 0 ≤ q ∧ q ≤ 255 := by
  cases r with
  | nan sign => simp [max17043_read_register_soc_returns] at h
  | inf sign => simp [max17043_read_register_soc_returns] at h
  | negZero => simp [max17043_read_register_soc_returns] at h
  | finite q =>
    simp only [max17043_read_register_soc_returns, Bool.and_eq_true, decide_eq_true_eq] at h
    exact ⟨q, rfl, h.1, h.2⟩

/-! ## Theorems -/

/-- C1: the percentage that one iteration formats and classifies is
`min s 100` for the value `s` returned by the gauge read: it is exactly 100
when `s > 100` and `s` itself when `s ≤ 100`. -/
theorem C1_soc_clamped_to_min (s : ℚ) (voltageRaw : ℕ) :
    app_main.soc s = min s 100 ∧
    (100 < s → app_main.soc s = 100) ∧
    (s ≤ 100 → app_main.soc s = s) ∧
    app_main.loop_body s voltageRaw =
      DisplayCall.ssd1306_display_text 0
          (app_main.lineChar (app_main.voltage voltageRaw) (min s 100))
          (app_main.lineChar (app_main.voltage voltageRaw) (min s 100)).length false
        :: app_main.icon_chain (min s 100) := by
  have hmin := app_main.soc_eq_min s
  refine ⟨hmin, ?_, ?_, ?_⟩
  · intro h
    rw [hmin, min_eq_right h.le]
  · intro h
    rw [hmin, min_eq_left h]
  · simp only [app_main.loop_body, app_main.render, hmin]

/-- Witness of C1 at the readings 110 and 42. -/
theorem C1_soc_clamped_to_min_witness :
    ((100 : ℚ) < 110 ∧ app_main.soc 110 = 100) ∧ ((42 : ℚ) ≤ 100 ∧ app_main.soc 42 = 42) :=
  ⟨⟨by norm_num, (C1_soc_clamped_to_min 110 0).2.1 (by norm_num)⟩,
    ⟨by norm_num, (C1_soc_clamped_to_min 42 0).2.2.1 (by norm_num)⟩⟩

/-- C3: for a percentage `p ≤ 100` the chain picks the first inclusive upper
threshold that `p` meets: `Batt_Empty` up to 25 (negative values included),
`Batt_Low` above 25 up to 50, `Batt_High` above 50 up to 75, `Batt_Full` above
75 up to 100; 25 gives Empty, 25.0001 Low, 50 Low, 75 High and 100 Full. -/
theorem C3_icon_thresholds (p : ℚ) (hp : p ≤ 100) :
    app_main.icon_chain p =
      [DisplayCall.ssd1306_bitmaps 112 0
        (if p ≤ 25 then Batt_Empty else if p ≤ 50 then Batt_Low
          else if p ≤ 75 then Batt_High else Batt_Full) 16 8 false] ∧
    (p < 0 → app_main.icon_chain p = [DisplayCall.ssd1306_bitmaps 112 0 Batt_Empty 16 8 false]) ∧
    (p ≤ 25 → app_main.icon_chain p = [DisplayCall.ssd1306_bitmaps 112 0 Batt_Empty 16 8 false]) ∧
    (25 < p → p ≤ 50 →
      app_main.icon_chain p = [DisplayCall.ssd1306_bitmaps 112 0 Batt_Low 16 8 false]) ∧
    (50 < p → p ≤ 75 →
      app_main.icon_chain p = [DisplayCall.ssd1306_bitmaps 112 0 Batt_High 16 8 false]) ∧
    (75 < p → p ≤ 100 →
      app_main.icon_chain p = [DisplayCall.ssd1306_bitmaps 112 0 Batt_Full 16 8 false]) ∧
    app_main.icon_chain 25.0 = [DisplayCall.ssd1306_bitmaps 112 0 Batt_Empty 16 8 false] ∧
    app_main.icon_chain 25.0001 = [DisplayCall.ssd1306_bitmaps 112 0 Batt_Low 16 8 false] ∧
    app_main.icon_chain 50.0 = [DisplayCall.ssd1306_bitmaps 112 0 Batt_Low 16 8 false] ∧
    app_main.icon_chain 75.0 = [DisplayCall.ssd1306_bitmaps 112 0 Batt_High 16 8 false] ∧
    app_main.icon_chain 100.0 = [DisplayCall.ssd1306_bitmaps 112 0 Batt_Full 16 8 false] := by
  have key := app_main.icon_chain_of_le
  refine ⟨key p hp, ?_, ?_, ?_, ?_, ?_, ?_, ?_, ?_, ?_, ?_⟩
  · intro h
    rw [key p hp, if_pos (by linarith)]
  · intro h
    rw [key p hp, if_pos h]
  · intro h1 h2
    rw [key p hp, if_neg (not_le.mpr h1), if_pos h2]
  · intro h1 h2
    rw [key p hp, if_neg (by linarith), if_neg (not_le.mpr h1), if_pos h2]
  · intro h1 _
    rw [key p hp, if_neg (by linarith), if_neg (by linarith), if_neg (not_le.mpr h1)]
  · rw [key _ (by norm_num)]; norm_num
  · rw [key _ (by norm_num)]; norm_num
  · rw [key _ (by norm_num)]; norm_num
  · rw [key _ (by norm_num)]; norm_num
  · rw [key _ (by norm_num)]; norm_num

/-- Witness of C3 at the boundary value 25. -/
theorem C3_icon_thresholds_witness :
    (25 : ℚ) ≤ 100 ∧
    app_main.icon_chain 25 = [DisplayCall.ssd1306_bitmaps 112 0 Batt_Empty 16 8 false] :=
  ⟨by norm_num, (C3_icon_thresholds 25 (by norm_num)).2.2.1 le_rfl⟩

/-- C4: for every value returned by the gauge read, one iteration issues
exactly two driver calls, the text draw and one icon blit at (112, 0), and
the bitmap of that blit is exactly one of the four battery icons: after the
clamp no reading falls through the chain. -/
theorem C4_exactly_one_icon (socRead : CFloat) (voltageRaw : ℕ)
    (hread : max17043_read_register_soc_returns socRead = true) :
    ∃! b : List ℕ, b ∈ [Batt_Empty, Batt_Low, Batt_High, Batt_Full] ∧
      app_main.icon_chain_float (app_main.soc_float socRead) =
        [DisplayCall.ssd1306_bitmaps 112 0 b 16 8 false] ∧
      ∃ text : String, app_main.loop_body_float socRead voltageRaw =
        [DisplayCall.ssd1306_display_text 0 text text.length false,
         DisplayCall.ssd1306_bitmaps 112 0 b 16 8 false] := by
  obtain ⟨q, rfl, -, -⟩ := max17043_read_register_soc_returns_finite socRead hread
  have hchain : app_main.icon_chain_float (app_main.soc_float (CFloat.finite q)) =
      [DisplayCall.ssd1306_bitmaps 112 0
        (if app_main.soc q ≤ 25 then Batt_Empty else if app_main.soc q ≤ 50 then Batt_Low
          else if app_main.soc q ≤ 75 then Batt_High else Batt_Full) 16 8 false] := by
    rw [app_main.soc_float_finite, app_main.icon_chain_float_finite]
    exact app_main.icon_chain_of_le (app_main.soc q) (app_main.soc_le q)
  refine ⟨_, ⟨?_, hchain, ?_⟩, ?_⟩
  · split_ifs <;> simp
  · refine ⟨app_main.lineChar_float (app_main.voltage voltageRaw)
      (app_main.soc_float (CFloat.finite q)), ?_⟩
    simp only [app_main.loop_body_float, hchain]
  · rintro b ⟨_, hb, _⟩
    rw [hchain] at hb
    simp only [List.cons.injEq, DisplayCall.ssd1306_bitmaps.injEq, and_true, true_and] at hb
    exact hb.symm

/-- Witness of C4 at the reading 50 and the raw voltage `0x0800`. -/
theorem C4_exactly_one_icon_witness :
    max17043_read_register_soc_returns (CFloat.finite 50) = true ∧
    ∃! b : List ℕ, b ∈ [Batt_Empty, Batt_Low, Batt_High, Batt_Full] ∧
      app_main.icon_chain_float (app_main.soc_float (CFloat.finite 50)) =
        [DisplayCall.ssd1306_bitmaps 112 0 b 16 8 false] ∧
      ∃ text : String, app_main.loop_body_float (CFloat.finite 50) 0x0800 =
        [DisplayCall.ssd1306_display_text 0 text text.length false,
         DisplayCall.ssd1306_bitmaps 112 0 b 16 8 false] :=
  ⟨by decide, C4_exactly_one_icon (CFloat.finite 50) 0x0800 (by decide)⟩

/-- C6: for every raw voltage register value and every value returned by the
gauge read, the text line is the two-decimal text of a value within half a
hundredth of the stored voltage (padded to at least 3 characters), then `V` and
the two tabs, then the two-decimal text of a value within half a hundredth of
the clamped percentage (padded to at least 6 characters), then `%`; a reading
of 110 with raw voltage 0 gives the percentage 100.00, the icon `Batt_Full` and
exactly the line `0.00V\t\t100.00%`. -/
theorem C6_text_line (raw : ℕ) (socRead : CFloat)
    (hread : max17043_read_register_soc_returns socRead = true) :
    (∃ (hv hp : ℕ) (p : ℚ),
      app_main.soc_float socRead = CFloat.finite p ∧
      abs ((hv : ℚ) / 100 - app_main.voltage raw) ≤ 1 / 200 ∧
      abs ((hp : ℚ) / 100 - p) ≤ 1 / 200 ∧
      app_main.lineChar_float (app_main.voltage raw) (app_main.soc_float socRead) =
        String.leftpad 3 ' ' (twoDecimals hv) ++ "V\t\t" ++
          String.leftpad 6 ' ' (twoDecimals hp) ++ "%") ∧
    max17043_read_register_soc_returns (CFloat.finite 110) = true ∧
    app_main.soc_float (CFloat.finite 110) = CFloat.finite 100.00 ∧
    app_main.loop_body_float (CFloat.finite 110) 0 =
      [DisplayCall.ssd1306_display_text 0 "0.00V\t\t100.00%" 14 false,
       DisplayCall.ssd1306_bitmaps 112 0 Batt_Full 16 8 false] := by
  have hclose : ∀ x : ℚ, 0 ≤ x →
      abs ((roundHalfEven (|x| * 100) : ℚ) / 100 - x) ≤ 1 / 200 := by
    intro x hx
    have h := abs_roundHalfEven_sub_le (|x| * 100) (by positivity)
    rw [abs_of_nonneg hx] at h ⊢
    rw [abs_le] at h ⊢
    constructor <;> linarith [h.1, h.2]
  have hempty : ∀ t : String, "" ++ t = t := fun t => by
    apply String.ext
    simp
  have h110 : app_main.soc 110 = ((100 : ℤ) : ℚ) := by
    unfold app_main.soc
    norm_num
  have hc : app_main.icon_chain ((100 : ℤ) : ℚ) =
      [DisplayCall.ssd1306_bitmaps 112 0 Batt_Full 16 8 false] := by
    rw [app_main.icon_chain_of_le _ (by norm_num)]
    norm_num
  obtain ⟨q, rfl, h0, -⟩ := max17043_read_register_soc_returns_finite socRead hread
  have hp0 := app_main.soc_nonneg q h0
  refine ⟨⟨roundHalfEven (|app_main.voltage raw| * 100),
    roundHalfEven (|app_main.soc q| * 100), app_main.soc q, app_main.soc_float_finite q,
    hclose _ (app_main.voltage_nonneg raw), hclose _ hp0, ?_⟩, by decide, ?_, ?_⟩
  · rw [app_main.soc_float_finite, app_main.lineChar_float_finite]
    unfold app_main.lineChar
    rw [printf_f_two_eq, printf_f_two_eq, if_neg (not_lt.mpr (app_main.voltage_nonneg raw)),
      if_neg (not_lt.mpr hp0), hempty, hempty]
  · rw [app_main.soc_float_finite, h110]
    norm_num
  · rw [app_main.loop_body_float_finite]
    simp only [app_main.loop_body, app_main.render, app_main.lineChar, h110, hc,
      app_main.voltage_zero, printf_f_two_int]
    decide

/-- Witness of C6 at the raw voltage `0x0800` and the reading 50. -/
theorem C6_text_line_witness :
    max17043_read_register_soc_returns (CFloat.finite 50) = true ∧
    ∃ (hv hp : ℕ) (p : ℚ),
      app_main.soc_float (CFloat.finite 50) = CFloat.finite p ∧
      abs ((hv : ℚ) / 100 - app_main.voltage 0x0800) ≤ 1 / 200 ∧
      abs ((hp : ℚ) / 100 - p) ≤ 1 / 200 ∧
      app_main.lineChar_float (app_main.voltage 0x0800)
          (app_main.soc_float (CFloat.finite 50)) =
        String.leftpad 3 ' ' (twoDecimals hv) ++ "V\t\t" ++
          String.leftpad 6 ' ' (twoDecimals hp) ++ "%" :=
  ⟨by decide, (C6_text_line 0x0800 (CFloat.finite 50) (by decide)).1⟩

/-- C7: for every raw voltage register value in `[0, 65535]` and every value
the gauge read can return, the string written by `sprintf` into `lineChar`,
its terminating NUL included, does not exceed the 20 bytes of the buffer: it
takes exactly 15 bytes. -/
theorem C7_line_fits_buffer (raw : ℕ) (socRead : CFloat) (hraw : raw ≤ 65535)
    (hread : max17043_read_register_soc_returns socRead = true) :
    (app_main.lineChar_float (app_main.voltage raw) (app_main.soc_float socRead)).length + 1
      ≤ app_main.lineChar_size ∧
    (app_main.lineChar_float (app_main.voltage raw) (app_main.soc_float socRead)).length + 1
      = 15 := by
  obtain ⟨q, rfl, h0, -⟩ := max17043_read_register_soc_returns_finite socRead hread
  rw [app_main.soc_float_finite, app_main.lineChar_float_finite]
  have h14 := app_main.lineChar_length_of_nonneg raw q hraw h0
  constructor
  · exact app_main.lineChar_length_le raw q hraw (by linarith)
  · rw [h14]

/-- Witness of C7 at the raw voltage `0x0800` and the reading 50. -/
theorem C7_line_fits_buffer_witness :
    (0x0800 ≤ 65535 ∧ max17043_read_register_soc_returns (CFloat.finite 50) = true) ∧
    (app_main.lineChar_float (app_main.voltage 0x0800)
      (app_main.soc_float (CFloat.finite 50))).length + 1 = 15 :=
  ⟨⟨by norm_num, by decide⟩,
    (C7_line_fits_buffer 0x0800 (CFloat.finite 50) (by norm_num) (by decide)).2⟩

/-- C9 (as stated) fails: the loop uses the value of the call without any
test, so whatever the helper returns for a failed transaction, the iteration
draws; a helper that returns 0 on failure makes the failed read appear as the
reading 0.00% with the empty-battery icon, exactly like a delivered 0. -/
theorem C9_counterexample :
    (¬ ∃ (read_soc : BusOutcome → ℚ) (raw : ℕ),
        app_main.iteration read_soc BusOutcome.fail raw = []) ∧
    app_main.iteration zero_on_fail BusOutcome.fail 0 =
      [DisplayCall.ssd1306_display_text 0 "0.00V\t\t  0.00%" 14 false,
       DisplayCall.ssd1306_bitmaps 112 0 Batt_Empty 16 8 false] ∧
    app_main.iteration zero_on_fail BusOutcome.fail 0 =
      app_main.iteration zero_on_fail
        (BusOutcome.ack 0) 0 := by
  have h : app_main.soc 0 = ((0 : ℤ) : ℚ) := by
    unfold app_main.soc
    norm_num
  have hc : app_main.icon_chain ((0 : ℤ) : ℚ) =
      [DisplayCall.ssd1306_bitmaps 112 0 Batt_Empty 16 8 false] := by
    rw [app_main.icon_chain_of_le _ (by norm_num), if_pos (by norm_num)]
  refine ⟨?_, ?_, rfl⟩
  · rintro ⟨read_soc, raw, hnil⟩
    simp [app_main.iteration, app_main.loop_body, app_main.render] at hnil
  · have hz : zero_on_fail BusOutcome.fail = 0 := rfl
    simp only [app_main.iteration, app_main.loop_body, app_main.render, app_main.lineChar, hz, h,
      hc, app_main.voltage_zero, printf_f_two_int]
    decide

/-- C9 (amended): the loop has no failure path. Whatever happened on the bus,
an iteration draws the text line for the value the gauge call returned and then
runs the icon chain on it; two bus outcomes for which the call returns the same
value are rendered identically; and each further iteration of the loop calls
the read again and appends its own draws, whatever the earlier outcomes were. -/
theorem C9_no_failure_path (read_soc : BusOutcome → ℚ) (outcomes : ℕ → BusOutcome)
    (raws : ℕ → ℕ) (n : ℕ) :
    app_main.iteration read_soc (outcomes n) (raws n) =
      DisplayCall.ssd1306_display_text 0
          (app_main.lineChar (app_main.voltage (raws n)) (app_main.soc (read_soc (outcomes n))))
          (app_main.lineChar (app_main.voltage (raws n))
            (app_main.soc (read_soc (outcomes n)))).length false
        :: app_main.icon_chain (app_main.soc (read_soc (outcomes n))) ∧
    (∀ o : BusOutcome, read_soc o = read_soc (outcomes n) →
      app_main.iteration read_soc o (raws n) =
        app_main.iteration read_soc (outcomes n) (raws n)) ∧
    app_main.telemetry_loop read_soc outcomes raws (n + 1) =
      app_main.telemetry_loop read_soc outcomes raws n ++
        app_main.iteration read_soc (outcomes n) (raws n) := by
  refine ⟨rfl, ?_, rfl⟩
  intro o ho
  unfold app_main.iteration
  rw [ho]

/-- Witness of C9 (amended): with a helper that returns 0 when the transaction
fails, the failed read and a delivered 0 are rendered identically. -/
theorem C9_no_failure_path_witness :
    zero_on_fail BusOutcome.fail = zero_on_fail (BusOutcome.ack 0) ∧
    app_main.iteration zero_on_fail BusOutcome.fail 7 =
      app_main.iteration zero_on_fail (BusOutcome.ack 0) 7 :=
  ⟨rfl, (C9_no_failure_path zero_on_fail
    (fun _ => BusOutcome.ack 0) (fun _ => 7) 0).2.1 BusOutcome.fail rfl⟩

/-- C10: rendering is idempotent. For every glyph table, every surface and
every pair of voltage and percentage, running the render part of an iteration
(the text line on text row 0, then the icon chain) twice leaves the same surface
as running it once. -/
theorem C10_render_idempotent (font : Char → ℕ → ℕ) (dev : Surface) (voltage soc : ℚ) :
    Surface.run font (Surface.run font dev (app_main.render voltage soc))
        (app_main.render voltage soc) =
      Surface.run font dev (app_main.render voltage soc) :=
  Surface.run_run font dev (app_main.render voltage soc)

/-- C11: for every reading, one iteration changes only pixel rows 0..7. Its
calls are the text draw on text row 0 and one 16x8 blit at (112, 0), no other
call (no clear-screen) is issued, every pixel these calls cover lies in rows
0..7, and every pixel in row 8 or below keeps the state it had before the
iteration. -/
theorem C11_rows_below_untouched (font : Char → ℕ → ℕ) (dev : Surface) (s : ℚ) (raw : ℕ)
    (x y : ℕ) (hy : 8 ≤ y) :
    (∀ c ∈ app_main.loop_body s raw,
      (∃ text : String, c = DisplayCall.ssd1306_display_text 0 text text.length false) ∨
      (∃ b : List ℕ, c = DisplayCall.ssd1306_bitmaps 112 0 b 16 8 false)) ∧
    (∀ c ∈ app_main.loop_body s raw, ∀ x' y', c.covers x' y' = true → y' ≤ 7) ∧
    Surface.run font dev (app_main.loop_body s raw) x y = dev x y := by
  have hbody := app_main.loop_body_eq s raw
  have hrows : ∀ c ∈ app_main.loop_body s raw, ∀ x' y', c.covers x' y' = true → y' ≤ 7 := by
    intro c hc x' y' hcov
    rw [hbody] at hc
    simp only [List.mem_cons, List.mem_singleton, List.not_mem_nil, or_false] at hc
    rcases hc with rfl | rfl
    · simp only [DisplayCall.covers, Bool.and_eq_true, decide_eq_true_eq] at hcov
      omega
    · simp only [DisplayCall.covers, Bool.and_eq_true, decide_eq_true_eq] at hcov
      omega
  refine ⟨?_, hrows, ?_⟩
  · intro c hc
    rw [hbody] at hc
    simp only [List.mem_cons, List.mem_singleton, List.not_mem_nil, or_false] at hc
    rcases hc with rfl | rfl
    · exact Or.inl ⟨_, rfl⟩
    · exact Or.inr ⟨_, rfl⟩
  · apply Surface.run_of_not_covered
    intro c hc
    by_contra hcov
    have h7 := hrows c hc x y (by simpa using hcov)
    omega

/-- Witness of C11: the pixel in column 5 of row 8 of a fully lit surface stays
lit through the iteration for the reading 50 and the raw voltage `0x0800`. -/
theorem C11_rows_below_untouched_witness :
    8 ≤ 8 ∧
    Surface.run (fun _ _ => 0) (fun _ _ => true) (app_main.loop_body 50 0x0800) 5 8 = true :=
  ⟨le_rfl, (C11_rows_below_untouched (fun _ _ => 0) (fun _ _ => true) 50 0x0800 5 8 le_rfl).2.2⟩

/-- C12: every bitmap table passed to `ssd1306_bitmaps` holds exactly
`width * height / 8` bytes for the width and height of the call: 16 bytes for
the 16x8 blit of each battery icon, 512 bytes for the 128x32 blit of
`cbi_logo`; so the byte of every pixel of the stated area, read row after row
at one bit per pixel, lies inside the table. -/
theorem C12_bitmap_sizes (s : ℚ) (raw : ℕ) :
    Batt_Empty.length = 16 * 8 / 8 ∧ Batt_Low.length = 16 * 8 / 8 ∧
    Batt_High.length = 16 * 8 / 8 ∧ Batt_Full.length = 16 * 8 / 8 ∧
    cbi_logo.length = 128 * 32 / 8 ∧
    Batt_Empty.length = 16 ∧ cbi_logo.length = 512 ∧
    (∀ xpos ypos bitmap width height invert,
      DisplayCall.ssd1306_bitmaps xpos ypos bitmap width height invert ∈
          app_main.splash_logo :: app_main.loop_body s raw →
        bitmap.length = width * height / 8 ∧
        ∀ row col, row < height → col < width →
          row * (width / 8) + col / 8 < bitmap.length) := by
  have hE : Batt_Empty.length = 16 := rfl
  have hL : Batt_Low.length = 16 := rfl
  have hH : Batt_High.length = 16 := rfl
  have hF : Batt_Full.length = 16 := rfl
  have hlogo : cbi_logo.length = 512 := by
    set_option maxRecDepth 8000 in
    rfl
  refine ⟨hE, hL, hH, hF, hlogo, hE, hlogo, ?_⟩
  intro xpos ypos bitmap width height invert hmem
  rw [app_main.loop_body_eq] at hmem
  simp only [List.mem_cons, List.mem_singleton, List.not_mem_nil, or_false,
    app_main.splash_logo, DisplayCall.ssd1306_bitmaps.injEq, reduceCtorEq, false_or] at hmem
  rcases hmem with ⟨-, -, rfl, rfl, rfl, -⟩ | ⟨-, -, rfl, rfl, rfl, -⟩
  · refine ⟨hlogo, ?_⟩
    intro row col hrow hcol
    rw [hlogo]
    omega
  · have hb := app_main.band_lt_four (app_main.soc s) (app_main.soc_le s)
    have hlen : ([Batt_Empty, Batt_Low, Batt_High, Batt_Full].getD
        (app_main.band (app_main.soc s)) []).length = 16 := by
      interval_cases app_main.band (app_main.soc s) <;> rfl
    refine ⟨hlen, ?_⟩
    intro row col hrow hcol
    rw [hlen]
    omega

/-- C13: the icon is monotone in the percentage. For `p ≤ q ≤ 100` the chain
blits for `p` the table number `i` and for `q` the table number `j` of the
list Empty, Low, High, Full with `i ≤ j`; the four tables are different, so a
higher state of charge never shows an emptier battery. -/
theorem C13_icon_monotone (p q : ℚ) (hpq : p ≤ q) (hq : q ≤ 100) :
    [Batt_Empty, Batt_Low, Batt_High, Batt_Full].Nodup ∧
    ∃ i j : ℕ, i ≤ j ∧ j < 4 ∧
      app_main.icon_chain p = [DisplayCall.ssd1306_bitmaps 112 0
        ([Batt_Empty, Batt_Low, Batt_High, Batt_Full].getD i []) 16 8 false] ∧
      app_main.icon_chain q = [DisplayCall.ssd1306_bitmaps 112 0
        ([Batt_Empty, Batt_Low, Batt_High, Batt_Full].getD j []) 16 8 false] :=
  ⟨by decide, app_main.band p, app_main.band q, app_main.band_mono p q hpq,
    app_main.band_lt_four q hq, app_main.icon_chain_eq_band p (hpq.trans hq),
    app_main.icon_chain_eq_band q hq⟩

/-- Witness of C13 at the percentages 30 and 80: Low is drawn for 30 and Full
for 80. -/
theorem C13_icon_monotone_witness :
    ((30 : ℚ) ≤ 80 ∧ (80 : ℚ) ≤ 100) ∧
    ∃ i j : ℕ, i ≤ j ∧ j < 4 ∧
      app_main.icon_chain 30 = [DisplayCall.ssd1306_bitmaps 112 0
        ([Batt_Empty, Batt_Low, Batt_High, Batt_Full].getD i []) 16 8 false] ∧
      app_main.icon_chain 80 = [DisplayCall.ssd1306_bitmaps 112 0
        ([Batt_Empty, Batt_Low, Batt_High, Batt_Full].getD j []) 16 8 false] :=
  ⟨⟨by norm_num, by norm_num⟩, (C13_icon_monotone 30 80 (by norm_num) (by norm_num)).2⟩

/-- C14: the four battery icons are strictly nested as pixel sets in band
order. For every byte index below 16 the AND of a table with the next one is
the lower table's byte, so every lit bit of the lower table is lit in the next
one; each next table lights a bit the lower one does not; and the four tables
are pairwise different. -/
theorem C14_icons_nested :
    (∀ i, i < 16 →
      Batt_Empty.getD i 0 &&& Batt_Low.getD i 0 = Batt_Empty.getD i 0 ∧
      Batt_Low.getD i 0 &&& Batt_High.getD i 0 = Batt_Low.getD i 0 ∧
      Batt_High.getD i 0 &&& Batt_Full.getD i 0 = Batt_High.getD i 0) ∧
    (∀ i k, i < 16 →
      ((Batt_Empty.getD i 0).testBit k = true → (Batt_Low.getD i 0).testBit k = true) ∧
      ((Batt_Low.getD i 0).testBit k = true → (Batt_High.getD i 0).testBit k = true) ∧
      ((Batt_High.getD i 0).testBit k = true → (Batt_Full.getD i 0).testBit k = true)) ∧
    ((Batt_Low.getD 5 0).testBit 3 = true ∧ (Batt_Empty.getD 5 0).testBit 3 = false) ∧
    ((Batt_High.getD 4 0).testBit 0 = true ∧ (Batt_Low.getD 4 0).testBit 0 = false) ∧
    ((Batt_Full.getD 4 0).testBit 2 = true ∧ (Batt_High.getD 4 0).testBit 2 = false) ∧
    Batt_Empty ≠ Batt_Low ∧ Batt_Empty ≠ Batt_High ∧ Batt_Empty ≠ Batt_Full ∧
    Batt_Low ≠ Batt_High ∧ Batt_Low ≠ Batt_Full ∧ Batt_High ≠ Batt_Full := by
  have hand : ∀ i, i < 16 →
      Batt_Empty.getD i 0 &&& Batt_Low.getD i 0 = Batt_Empty.getD i 0 ∧
      Batt_Low.getD i 0 &&& Batt_High.getD i 0 = Batt_Low.getD i 0 ∧
      Batt_High.getD i 0 &&& Batt_Full.getD i 0 = Batt_High.getD i 0 := by
    decide
  have hsub : ∀ a b k : ℕ, a &&& b = a → a.testBit k = true → b.testBit k = true := by
    intro a b k hab ha
    rw [← hab, Nat.testBit_land, Bool.and_eq_true] at ha
    exact ha.2
  refine ⟨hand, ?_, by decide, by decide, by decide, by decide, by decide, by decide,
    by decide, by decide, by decide⟩
  intro i k hi
  obtain ⟨h1, h2, h3⟩ := hand i hi
  exact ⟨hsub _ _ k h1, hsub _ _ k h2, hsub _ _ k h3⟩

end TestCode
